import Mathlib

/-!
Shallow embedding of `pkg/pgmodel/querier/series_set.go` (promscale).

The file models the data reachable from that file's code:
`pgxSeriesSet` (`Next`/`At`/`Err`/`Close`), `pgxSeries`, and
`pgxSeriesIterator` (`Seek`/`At`/`Next`), together with the small pieces of
its collaborators that the code inspects (rows, label maps, nullable float
arrays, timestamp series).  Go machine integers are modelled as `Int`
(no arithmetic near overflow occurs in this code), `float64` payloads as
`Rat` (the code never computes with them, it only moves them), Go `error`
values as explicit `Option`-valued error data, and the Go runtime panic on a
negative slice index as an explicit `AtResult.panicked` outcome.
-/

/-- A Prometheus label, a (name, value) pair (`labels.Label`). -/
structure Label where
  name : String
  value : String
deriving DecidableEq

/-- The zero value `labels.Label{}` that `At` compares against. -/
def emptyLabel : Label := ⟨"", ""⟩

/-- Modelled from the spec: `model.MetricNameLabelName`, the name of the
metric-name label (its defining file is not part of the sources here; the
spec calls it "the metric-name label", `__name__` in its examples). -/
def MetricNameLabelName : String := "__name__"

/-- `pgtype.Status` of a nullable value. -/
inductive Status where
  | undefined
  | null
  | present
deriving DecidableEq

/-- `pgtype.Float8`: a nullable float sample.  The `float64` payload is
modelled as `Rat`; the code only reads it, never computes with it. -/
structure Float8 where
  float : Rat
  status : Status
deriving DecidableEq

/-- The default `Float8` used to totalize out-of-range indexing (Go would
panic there; all theorems below stay in range). -/
def defaultFloat8 : Float8 := ⟨0, Status.undefined⟩

/-- `pgtype.Float8Array`; only its `Elements` field is used by the code. -/
structure Float8Array where
  elements : List Float8
deriving DecidableEq

/-- The `TimestampSeries` interface: a length and a positional accessor
`At` returning a timestamp together with an ok flag. -/
structure TimestampSeries where
  Len : Nat
  At : Int → Int × Bool

/-- A concrete `TimestampSeries` built from a list of timestamps that are
all readable; used for concrete instances of the theorems. -/
def tsOfList (l : List Int) : TimestampSeries :=
  { Len := l.length
    At := fun i =>
      if i < 0 then (0, false)
      else
        match l[i.toNat]? with
        | some t => (t, true)
        | none => (0, false) }

/-- An opaque upstream error attached to a row by the fetch layer. -/
structure RowError where
  tag : Nat
deriving DecidableEq

/-- The fields of `timescaleRow` that `series_set.go` reads.  The struct's
defining file is not among the sources; the fields are exactly those the
code under verification dereferences. -/
structure timescaleRow where
  times : TimestampSeries
  values : Float8Array
  labelIds : List Int
  metricOverride : String
  additionalLabels : List Label
  err : Option RowError

/-- Modelled from the spec: `timescaleRow.GetAdditionalLabels` (defined
outside the sources here) returns the row's additional labels, "labels
appended after resolution and override". -/
def timescaleRow.GetAdditionalLabels (r : timescaleRow) : List Label :=
  r.additionalLabels

/-- A default row used to totalize list indexing that is in range in every
reachable state (Go would panic on an out-of-range index). -/
def defaultRow : timescaleRow :=
  { times := ⟨0, fun _ => (0, false)⟩
    values := ⟨[]⟩
    labelIds := []
    metricOverride := ""
    additionalLabels := []
    err := none }

/-- The error data a `pgxSeriesSet` can latch in `p.err`:
`errors.ErrInvalidRowData`, the `fmt.Errorf("Missing label for id %v", id)`
error, or a row's own pre-existing error adopted in `Next`. -/
inductive SeriesSetErr where
  | invalidRowData
  | missingLabel (id : Int)
  | rowErr (e : RowError)
deriving DecidableEq

/-- The wrapping performed by `Err`:
`fmt.Errorf("Error retrieving series set: %w", p.err)`. -/
inductive QueryError where
  | retrieveSeriesSet (cause : SeriesSetErr)
deriving DecidableEq

/-- `pgxSeries`: a materialized series (labels, times, values). -/
structure pgxSeries where
  labels : List Label
  times : TimestampSeries
  values : Float8Array

/-- Outcome of `pgxSeriesSet.At`: the Go function returns a
`storage.Series` interface value that is either `nil`, or a `*pgxSeries`;
indexing `p.rows` with a negative index panics at runtime, modelled as a
third explicit outcome. -/
inductive AtResult where
  | panicked
  | nilSeries
  | series (s : pgxSeries)

/-- Observer: the labels of a produced series, if any. -/
def AtResult.labelList : AtResult → Option (List Label)
  | AtResult.series s => some s.labels
  | _ => none

/-- `pgxSeriesSet`: cursor state.  The `querier` field of the Go struct is
unused after construction and is omitted; the label map is an association
list (Go `map[int64]labels.Label`). -/
structure pgxSeriesSet where
  rowIdx : Int
  rows : List timescaleRow
  labelIDMap : List (Int × Label)
  err : Option SeriesSetErr

/-- The cursor literal built at the end of `buildSeriesSet` (lines 46-51):
position before the first row, no error. -/
def buildPgxSeriesSet (rows : List timescaleRow) (m : List (Int × Label)) : pgxSeriesSet :=
  { rows := rows, rowIdx := -1, labelIDMap := m, err := none }

/-- A record of `row.Close()` having been invoked on a row; `Close` on the
cursor is modelled as the trace of these events. -/
structure CloseEvent where
  row : timescaleRow

/-- Ordering of labels by name, the `Less` used by `sort.Sort` on
`labels.Labels` (Go string order is lexicographic on the characters, the
order on the name's character list). -/
def labelLe (a b : Label) : Prop := a.name.toList ≤ b.name.toList

instance : DecidableRel labelLe := fun a b =>
  inferInstanceAs (Decidable (a.name.toList ≤ b.name.toList))

instance : IsTotal Label labelLe :=
  ⟨fun a b => by
    simp only [labelLe, ← String.le_iff_toList_le]
    exact le_total a.name b.name⟩

instance : IsTrans Label labelLe :=
  ⟨fun a b c h h' => by
    simp only [labelLe, ← String.le_iff_toList_le] at *
    exact le_trans h h'⟩

/-- `sort.Sort(lls)` with by-name ordering (a by-name sort; `sort.Sort`
guarantees a by-name-sorted permutation, which is what the theorems use). -/
def sortLabels (l : List Label) : List Label := List.insertionSort labelLe l

/-- The `metricOverride` loop of `At` (lines 114-121): replace the value of
the first label named `MetricNameLabelName`, then stop. -/
def overrideMetricName (mo : String) : List Label → List Label
  | [] => []
  | l :: ls =>
    if l.name = MetricNameLabelName then { l with value := mo } :: ls
    else l :: overrideMetricName mo ls

/-- The label-resolution loop of `At` (lines 96-112): skip id 0, look every
other id up in the map, fail on a missing or zero-value entry, otherwise
accumulate the labels in order.  The error carries the offending id. -/
def resolveLabels (m : List (Int × Label)) : List Int → Except Int (List Label)
  | [] => Except.ok []
  | id :: rest =>
    if id = 0 then resolveLabels m rest
    else
      match List.lookup id m with
      | none => Except.error id
      | some label =>
        if label = emptyLabel then Except.error id
        else
          match resolveLabels m rest with
          | Except.error e => Except.error e
          | Except.ok lls => Except.ok (label :: lls)

/-- A label id whose lookup fails the hard checks of the resolution loop:
non-zero and either absent from the map or mapped to the zero label. -/
def badLabelId (m : List (Int × Label)) (id : Int) : Prop :=
  id ≠ 0 ∧ (List.lookup id m = none ∨ List.lookup id m = some emptyLabel)

instance (m : List (Int × Label)) (id : Int) : Decidable (badLabelId m id) :=
  inferInstanceAs (Decidable (_ ∧ _))

/-- `pgxSeriesSet.Next` (lines 55-67). -/
def pgxSeriesSet.Next (p : pgxSeriesSet) : Bool × pgxSeriesSet :=
  if (p.rows.length : Int) ≤ p.rowIdx then (false, p)
  else
    let q : pgxSeriesSet := { p with rowIdx := p.rowIdx + 1 }
    if (q.rows.length : Int) ≤ q.rowIdx then (false, q)
    else if q.err = none then
      (true, { q with err := (q.rows.getD q.rowIdx.toNat defaultRow).err.map SeriesSetErr.rowErr })
    else (true, q)

/-- `pgxSeriesSet.At` (lines 70-128).  A negative `rowIdx` passes the
out-of-range guard (which only checks the upper bound) and makes
`p.rows[p.rowIdx]` panic in Go; that outcome is `AtResult.panicked`. -/
def pgxSeriesSet.At (p : pgxSeriesSet) : AtResult × pgxSeriesSet :=
  if (p.rows.length : Int) ≤ p.rowIdx then (AtResult.nilSeries, p)
  else if p.rowIdx < 0 then (AtResult.panicked, p)
  else
    let row := p.rows.getD p.rowIdx.toNat defaultRow
    if row.err ≠ none then (AtResult.nilSeries, p)
    else if row.times.Len ≠ row.values.elements.length then
      (AtResult.nilSeries, { p with err := some SeriesSetErr.invalidRowData })
    else if row.labelIds.length = 0 then
      (AtResult.series { labels := [], times := row.times, values := row.values }, p)
    else
      match resolveLabels p.labelIDMap row.labelIds with
      | Except.error id =>
        (AtResult.nilSeries, { p with err := some (SeriesSetErr.missingLabel id) })
      | Except.ok lls =>
        let lls2 := if row.metricOverride ≠ "" then overrideMetricName row.metricOverride lls else lls
        let lls3 := lls2 ++ row.GetAdditionalLabels
        (AtResult.series { labels := sortLabels lls3, times := row.times, values := row.values }, p)

/-- `pgxSeriesSet.Err` (lines 131-136). -/
def pgxSeriesSet.Err (p : pgxSeriesSet) : Option QueryError :=
  p.err.map QueryError.retrieveSeriesSet

/-- `pgxSeriesSet.Close` (lines 140-144): call `row.Close()` on every row
in order; the result is the trace of the close calls. -/
def pgxSeriesSet.Close (p : pgxSeriesSet) : List CloseEvent :=
  p.rows.map CloseEvent.mk

/-- `pgxSeriesIterator` state. -/
structure pgxSeriesIterator where
  cur : Int
  totalSamples : Nat
  times : TimestampSeries
  values : Float8Array

/-- `newIterator` (lines 172-179). -/
def newIterator (times : TimestampSeries) (values : Float8Array) : pgxSeriesIterator :=
  { cur := -1, totalSamples := times.Len, times := times, values := values }

/-- `getTs` (lines 195-198). -/
def pgxSeriesIterator.getTs (p : pgxSeriesIterator) : Int :=
  (p.times.At p.cur).1

/-- `getVal` (lines 200-202); the indexing is in range whenever
`values` and `times` have matching lengths, as `newIterator` expects. -/
def pgxSeriesIterator.getVal (p : pgxSeriesIterator) : Rat :=
  (p.values.elements.getD p.cur.toNat defaultFloat8).float

/-- `pgxSeriesIterator.At` (lines 205-210). -/
def pgxSeriesIterator.At (p : pgxSeriesIterator) : Int × Rat :=
  if (p.totalSamples : Int) ≤ p.cur ∨ p.cur < 0 then (0, 0)
  else (p.getTs, p.getVal)

/-- The test of the `Next` loop at position `i`: the timestamp is readable
and the value is present (`ok && Status == pgtype.Present`). -/
def sampleOk (times : TimestampSeries) (values : Float8Array) (i : Int) : Bool :=
  (times.At i).2 && decide ((values.elements.getD i.toNat defaultFloat8).status = Status.present)

/-- Number of positions the cursor can still advance through (plus the one
step that detects exhaustion); fuel for the loops below. -/
def itFuel (p : pgxSeriesIterator) : Nat := ((p.totalSamples : Int) - p.cur).toNat

/-- The loop of `pgxSeriesIterator.Next` (lines 213-224), with explicit
fuel: each iteration increments `cur`, returns at exhaustion or at a
present sample, and otherwise continues.  `none` means the fuel ran out
(shown below never to happen for sufficient fuel). -/
def iterNextF : Nat → pgxSeriesIterator → Option (Bool × pgxSeriesIterator)
  | 0, _ => none
  | f + 1, p =>
    if (p.totalSamples : Int) ≤ p.cur + 1 then some (false, { p with cur := p.cur + 1 })
    else if sampleOk p.times p.values (p.cur + 1) then some (true, { p with cur := p.cur + 1 })
    else iterNextF f { p with cur := p.cur + 1 }

/-- `pgxSeriesIterator.Next` (lines 213-224): the loop run with sufficient
fuel (the default branch is unreachable, as proved below). -/
def pgxSeriesIterator.Next (p : pgxSeriesIterator) : Bool × pgxSeriesIterator :=
  (iterNextF (itFuel p + 1) p).getD (false, p)

/-- The loop of `Seek` (lines 185-189), with explicit fuel counting the
`Next` calls: stop with `true` at the first found sample whose timestamp
is at least `t`, stop with `false` when `Next` fails. -/
def seekF : Nat → Int → pgxSeriesIterator → Option (Bool × pgxSeriesIterator)
  | 0, _, _ => none
  | f + 1, t, p =>
    match pgxSeriesIterator.Next p with
    | (false, q) => some (false, q)
    | (true, q) => if t ≤ q.getTs then some (true, q) else seekF f t q

/-- `pgxSeriesIterator.Seek` (lines 182-192): reset `cur` to `-1`, then run
the `Next` loop with sufficient fuel. -/
def pgxSeriesIterator.Seek (t : Int) (p : pgxSeriesIterator) : Bool × pgxSeriesIterator :=
  let p0 : pgxSeriesIterator := { p with cur := -1 }
  (seekF (itFuel p0 + 1) t p0).getD (false, p0)

/-! ### Concrete fixtures -/

/-- The spec's example timestamps `[0,1,2,3]`. -/
def exTimes : TimestampSeries := tsOfList [0, 1, 2, 3]

/-- The spec's example values `[1.0, null, 3.0, null]`. -/
def exValues : Float8Array :=
  ⟨[⟨1, Status.present⟩, ⟨0, Status.null⟩, ⟨3, Status.present⟩, ⟨0, Status.null⟩]⟩

/-- The example iterator, freshly constructed. -/
def exIter0 : pgxSeriesIterator := newIterator exTimes exValues

/-- The example iterator after one `Next`. -/
def exIter1 : pgxSeriesIterator := (pgxSeriesIterator.Next exIter0).2

/-- The example iterator after two `Next`s. -/
def exIter2 : pgxSeriesIterator := (pgxSeriesIterator.Next exIter1).2

/-- The example iterator after three `Next`s (exhausted). -/
def exIter3 : pgxSeriesIterator := (pgxSeriesIterator.Next exIter2).2

/-- A well-formed row with no labels and no samples. -/
def rowPlain : timescaleRow :=
  { times := tsOfList []
    values := ⟨[]⟩
    labelIds := []
    metricOverride := ""
    additionalLabels := []
    err := none }

/-- A row carrying a pre-existing fetch error. -/
def rowWithErr : timescaleRow := { rowPlain with err := some ⟨0⟩ }

/-- A row with no pre-existing error but mismatched lengths
(one timestamp, zero values). -/
def rowMismatch : timescaleRow := { rowPlain with times := tsOfList [5] }

/-- A row with a pre-existing fetch error and also mismatched lengths. -/
def rowErrMismatch : timescaleRow := { rowMismatch with err := some ⟨0⟩ }

/-- The label list assembled by `At` for a row whose ids resolved to
`lls`: override applied when `metricOverride` is non-empty, then the
additional labels appended (the code's `lls2`/`lls3` chain). -/
def assembledLabels (row : timescaleRow) (lls : List Label) : List Label :=
  (if row.metricOverride ≠ "" then overrideMetricName row.metricOverride lls else lls)
    ++ row.GetAdditionalLabels

/-- A row referencing a label id absent from every map. -/
def rowBadLabel : timescaleRow := { rowPlain with labelIds := [7] }

/-- A row with no label ids but a non-empty set of additional labels. -/
def rowNoIds : timescaleRow := { rowPlain with additionalLabels := [⟨"a", "b"⟩] }

/-- A row with two label ids (out of name order) and an additional label. -/
def exRowFull : timescaleRow :=
  { rowPlain with labelIds := [2, 1], additionalLabels := [⟨"z", "w"⟩] }

/-- A resolved map for the ids of `exRowFull`. -/
def exMap : List (Int × Label) := [(1, ⟨"__name__", "foo"⟩), (2, ⟨"job", "a"⟩)]

/-- A cursor positioned on `exRowFull`. -/
def cursorFull : pgxSeriesSet :=
  { rowIdx := 0, rows := [exRowFull], labelIDMap := exMap, err := none }

/-- A cursor positioned on the mismatched-lengths row. -/
def cursorMismatch : pgxSeriesSet :=
  { rowIdx := 0, rows := [rowMismatch], labelIDMap := [], err := none }

/-- A cursor positioned on the row with the unresolvable label id. -/
def cursorBadLabel : pgxSeriesSet :=
  { rowIdx := 0, rows := [rowBadLabel], labelIDMap := [], err := none }

/-- The label named `job` in the override example. -/
def labJob : Label := ⟨"job", "a"⟩

/-- The metric-name label in the override example. -/
def labName : Label := ⟨"__name__", "foo"⟩

/-- A duplicate metric-name label in the override example. -/
def labNameDup : Label := ⟨"__name__", "dup"⟩

/-- The override value in the override example. -/
def exBar : String := "bar"

/-! ### Characterization of the iterator loops -/

/-- One run of the `Next` loop, from any fuel that returned a result:
the cursor strictly advances; on `true` it stops on the first present,
readable sample after the old position; on `false` it has run past the
end and no such sample existed. -/
lemma nextF_spec (f : Nat) (p q : pgxSeriesIterator) (b : Bool)
    (h : iterNextF f p = some (b, q)) :
    q.totalSamples = p.totalSamples ∧ q.times = p.times ∧ q.values = p.values ∧
    p.cur < q.cur ∧
    (b = true → q.cur < (p.totalSamples : Int) ∧
      sampleOk p.times p.values q.cur = true ∧
      ∀ j : Int, p.cur < j → j < q.cur → sampleOk p.times p.values j = false) ∧
    (b = false → (p.totalSamples : Int) ≤ q.cur ∧
      ∀ j : Int, p.cur < j → j < (p.totalSamples : Int) →
        sampleOk p.times p.values j = false) := by
  induction f generalizing p q b with
  | zero => simp [iterNextF] at h
  | succ f ih =>
    simp only [iterNextF] at h
    by_cases h1 : (p.totalSamples : Int) ≤ p.cur + 1
    · rw [if_pos h1] at h
      obtain ⟨hb, hq⟩ : false = b ∧ ({ p with cur := p.cur + 1 } : pgxSeriesIterator) = q := by
        simpa using h
      subst hb; subst hq
      refine ⟨rfl, rfl, rfl, by simp, by simp, fun _ => ⟨by simpa using h1, ?_⟩⟩
      intro j hj1 hj2
      omega
    · rw [if_neg h1] at h
      by_cases h2 : sampleOk p.times p.values (p.cur + 1) = true
      · rw [if_pos h2] at h
        obtain ⟨hb, hq⟩ : true = b ∧ ({ p with cur := p.cur + 1 } : pgxSeriesIterator) = q := by
          simpa using h
        subst hb; subst hq
        refine ⟨rfl, rfl, rfl, by simp, fun _ => ⟨by simp; omega, h2, ?_⟩, by simp⟩
        intro j hj1 hj2
        simp only at hj2
        omega
      · rw [if_neg h2] at h
        obtain ⟨ht, htm, hv, hc, hT, hF⟩ := ih { p with cur := p.cur + 1 } q b h
        have hc' : p.cur + 1 < q.cur := hc
        refine ⟨ht, htm, hv, by omega, ?_, ?_⟩
        · intro hb
          obtain ⟨hq1, hq2, hq3⟩ := hT hb
          refine ⟨hq1, hq2, ?_⟩
          intro j hj1 hj2
          rcases (by omega : j = p.cur + 1 ∨ p.cur + 1 < j) with hj | hj
          · subst hj
            simpa using h2
          · exact hq3 j hj hj2
        · intro hb
          obtain ⟨hq1, hq2⟩ := hF hb
          refine ⟨hq1, ?_⟩
          intro j hj1 hj2
          rcases (by omega : j = p.cur + 1 ∨ p.cur + 1 < j) with hj | hj
          · subst hj
            simpa using h2
          · exact hq2 j hj hj2

/-- The `Next` loop returns a result whenever the fuel exceeds the number
of remaining positions. -/
lemma nextF_suff (f : Nat) (p : pgxSeriesIterator) (h : itFuel p < f) :
    (iterNextF f p).isSome := by
  induction f generalizing p with
  | zero => omega
  | succ f ih =>
    simp only [iterNextF]
    by_cases h1 : (p.totalSamples : Int) ≤ p.cur + 1
    · simp [h1]
    · rw [if_neg h1]
      by_cases h2 : sampleOk p.times p.values (p.cur + 1) = true
      · simp [h2]
      · rw [if_neg h2]
        apply ih
        simp only [itFuel] at h ⊢
        omega

/-- `pgxSeriesIterator.Next` is the loop run with fuel `itFuel p + 1`. -/
lemma iterNext_eq (p : pgxSeriesIterator) :
    iterNextF (itFuel p + 1) p = some (pgxSeriesIterator.Next p) := by
  have hs := nextF_suff (itFuel p + 1) p (Nat.lt_succ_self _)
  rcases Option.isSome_iff_exists.mp hs with ⟨r, hr⟩
  simp [pgxSeriesIterator.Next, hr]

/-- Characterization of `pgxSeriesIterator.Next`. -/
lemma iterNext_spec (p q : pgxSeriesIterator) (b : Bool)
    (h : pgxSeriesIterator.Next p = (b, q)) :
    q.totalSamples = p.totalSamples ∧ q.times = p.times ∧ q.values = p.values ∧
    p.cur < q.cur ∧
    (b = true → q.cur < (p.totalSamples : Int) ∧
      sampleOk p.times p.values q.cur = true ∧
      ∀ j : Int, p.cur < j → j < q.cur → sampleOk p.times p.values j = false) ∧
    (b = false → (p.totalSamples : Int) ≤ q.cur ∧
      ∀ j : Int, p.cur < j → j < (p.totalSamples : Int) →
        sampleOk p.times p.values j = false) := by
  apply nextF_spec (itFuel p + 1) p q b
  rw [iterNext_eq p, h]

/-- One run of the `Seek` loop, from any fuel that returned a result: on
`true` the cursor is parked, after the old position, on the first present
readable sample whose timestamp is at least `t` (every earlier present
sample has a smaller timestamp); on `false` no such sample existed and the
cursor has run past the end. -/
lemma seekF_spec (f : Nat) (t : Int) (p q : pgxSeriesIterator) (b : Bool)
    (h : seekF f t p = some (b, q)) :
    q.totalSamples = p.totalSamples ∧ q.times = p.times ∧ q.values = p.values ∧
    p.cur < q.cur ∧
    (b = true → q.cur < (p.totalSamples : Int) ∧
      sampleOk p.times p.values q.cur = true ∧ t ≤ (p.times.At q.cur).1 ∧
      ∀ j : Int, p.cur < j → j < q.cur →
        sampleOk p.times p.values j = true → (p.times.At j).1 < t) ∧
    (b = false → (p.totalSamples : Int) ≤ q.cur ∧
      ∀ j : Int, p.cur < j → j < (p.totalSamples : Int) →
        sampleOk p.times p.values j = true → (p.times.At j).1 < t) := by
  induction f generalizing p q b with
  | zero => simp [seekF] at h
  | succ f ih =>
    simp only [seekF] at h
    rcases hn : pgxSeriesIterator.Next p with ⟨bb, r⟩
    rw [hn] at h
    obtain ⟨hrt, hrtm, hrv, hrc, hrT, hrF⟩ := iterNext_spec p r bb hn
    cases bb with
    | false =>
      obtain ⟨hb, hq⟩ : false = b ∧ r = q := by simpa using h
      subst hb; subst hq
      refine ⟨hrt, hrtm, hrv, hrc, by simp, fun _ => ⟨(hrF rfl).1, ?_⟩⟩
      intro j hj1 hj2 hj3
      rw [(hrF rfl).2 j hj1 hj2] at hj3
      cases hj3
    | true =>
      obtain ⟨hT1, hT2, hT3⟩ := hrT rfl
      have h' : (if t ≤ r.getTs then some (true, r) else seekF f t r) = some (b, q) := h
      by_cases hts : t ≤ r.getTs
      · rw [if_pos hts] at h'
        obtain ⟨hb, hq⟩ : true = b ∧ r = q := by simpa using h'
        subst hb; subst hq
        refine ⟨hrt, hrtm, hrv, hrc, fun _ => ⟨hT1, hT2, ?_, ?_⟩, by simp⟩
        · have : r.getTs = (p.times.At r.cur).1 := by
            simp [pgxSeriesIterator.getTs, hrtm]
          rwa [this] at hts
        · intro j hj1 hj2 hj3
          rw [hT3 j hj1 hj2] at hj3
          cases hj3
      · rw [if_neg hts] at h'
        obtain ⟨ht', htm', hv', hc', hT', hF'⟩ := ih r q b h'
        have hts' : (p.times.At r.cur).1 < t := by
          have : r.getTs = (p.times.At r.cur).1 := by
            simp [pgxSeriesIterator.getTs, hrtm]
          rw [← this]
          omega
        have htot : (r.totalSamples : Int) = (p.totalSamples : Int) := by rw [hrt]
        refine ⟨ht'.trans hrt, htm'.trans hrtm, hv'.trans hrv, by omega, ?_, ?_⟩
        · intro hb
          obtain ⟨hq1, hq2, hq3, hq4⟩ := hT' hb
          rw [htot] at hq1
          rw [hrtm, hrv] at hq2
          rw [hrtm] at hq3
          refine ⟨hq1, hq2, hq3, ?_⟩
          intro j hj1 hj2 hj3
          rcases (by omega : (j < r.cur ∨ j = r.cur) ∨ r.cur < j) with (hj | hj) | hj
          · rw [hT3 j hj1 hj] at hj3
            cases hj3
          · subst hj
            exact hts'
          · rw [hrtm, hrv] at hq4
            exact hq4 j hj hj2 hj3
        · intro hb
          obtain ⟨hq1, hq2⟩ := hF' hb
          rw [htot] at hq1
          refine ⟨hq1, ?_⟩
          intro j hj1 hj2 hj3
          rcases (by omega : (j < r.cur ∨ j = r.cur) ∨ r.cur < j) with (hj | hj) | hj
          · rw [hT3 j hj1 hj] at hj3
            cases hj3
          · subst hj
            exact hts'
          · rw [hrtm, hrv] at hq2
            rw [htot] at hq2
            exact hq2 j hj hj2 hj3

/-- The `Seek` loop returns a result whenever the fuel is positive and at
least the number of remaining positions. -/
lemma seekF_suff (f : Nat) (t : Int) (p : pgxSeriesIterator)
    (h1 : 1 ≤ f) (h2 : itFuel p ≤ f) : (seekF f t p).isSome := by
  induction f generalizing p with
  | zero => omega
  | succ f ih =>
    simp only [seekF]
    rcases hn : pgxSeriesIterator.Next p with ⟨bb, r⟩
    obtain ⟨hrt, hrtm, hrv, hrc, hrT, hrF⟩ := iterNext_spec p r bb hn
    cases bb with
    | false => simp
    | true =>
      show (if t ≤ r.getTs then some (true, r) else seekF f t r).isSome = true
      by_cases hts : t ≤ r.getTs
      · simp [hts]
      · rw [if_neg hts]
        obtain ⟨hT1, _, _⟩ := hrT rfl
        apply ih
        · have : (r.totalSamples : Int) = (p.totalSamples : Int) := by rw [hrt]
          simp only [itFuel] at h2 ⊢
          omega
        · have : (r.totalSamples : Int) = (p.totalSamples : Int) := by rw [hrt]
          simp only [itFuel] at h2 ⊢
          omega

/-- The `Seek` loop gives the same result under any two sufficient fuels. -/
lemma seekF_irrel (f g : Nat) (t : Int) (p : pgxSeriesIterator)
    (hf1 : 1 ≤ f) (hf2 : itFuel p ≤ f) (hg1 : 1 ≤ g) (hg2 : itFuel p ≤ g) :
    seekF f t p = seekF g t p := by
  induction f generalizing g p with
  | zero => omega
  | succ f ih =>
    cases g with
    | zero => omega
    | succ g =>
      simp only [seekF]
      rcases hn : pgxSeriesIterator.Next p with ⟨bb, r⟩
      obtain ⟨hrt, hrtm, hrv, hrc, hrT, hrF⟩ := iterNext_spec p r bb hn
      cases bb with
      | false => rfl
      | true =>
        show (if t ≤ r.getTs then some (true, r) else seekF f t r)
          = (if t ≤ r.getTs then some (true, r) else seekF g t r)
        by_cases hts : t ≤ r.getTs
        · rw [if_pos hts, if_pos hts]
        · rw [if_neg hts, if_neg hts]
          obtain ⟨hT1, _, _⟩ := hrT rfl
          have htot : (r.totalSamples : Int) = (p.totalSamples : Int) := by rw [hrt]
          apply ih
          all_goals
            simp only [itFuel] at hf2 hg2 ⊢
            omega

/-- Resetting the cursor to `-1` leaves `totalSamples + 1` positions. -/
lemma itFuel_reset (p : pgxSeriesIterator) :
    itFuel { p with cur := -1 } = p.totalSamples + 1 := by
  simp only [itFuel]
  omega

/-- `Seek` is the loop run from the reset state with fuel
`totalSamples + 1`, i.e. at most `totalSamples + 1` `Next` calls. -/
lemma iterSeek_eq (t : Int) (p : pgxSeriesIterator) :
    seekF (p.totalSamples + 1) t { p with cur := -1 }
      = some (pgxSeriesIterator.Seek t p) := by
  have h1 : itFuel ({ p with cur := -1 } : pgxSeriesIterator) = p.totalSamples + 1 :=
    itFuel_reset p
  have hs := seekF_suff (p.totalSamples + 1) t { p with cur := -1 } (by omega) (by omega)
  rcases Option.isSome_iff_exists.mp hs with ⟨r, hr⟩
  have hirr := seekF_irrel (p.totalSamples + 1)
    (itFuel ({ p with cur := -1 } : pgxSeriesIterator) + 1) t { p with cur := -1 }
    (by omega) (by omega) (by omega) (by omega)
  simp only [pgxSeriesIterator.Seek]
  rw [← hirr, hr]
  simp

/-- Characterization of `pgxSeriesIterator.Seek`. -/
lemma seek_spec (t : Int) (p q : pgxSeriesIterator) (b : Bool)
    (h : pgxSeriesIterator.Seek t p = (b, q)) :
    q.totalSamples = p.totalSamples ∧ q.times = p.times ∧ q.values = p.values ∧
    (b = true → 0 ≤ q.cur ∧ q.cur < (p.totalSamples : Int) ∧
      sampleOk p.times p.values q.cur = true ∧ t ≤ (p.times.At q.cur).1 ∧
      ∀ j : Int, 0 ≤ j → j < q.cur →
        sampleOk p.times p.values j = true → (p.times.At j).1 < t) ∧
    (b = false → (p.totalSamples : Int) ≤ q.cur ∧
      ∀ j : Int, 0 ≤ j → j < (p.totalSamples : Int) →
        sampleOk p.times p.values j = true → (p.times.At j).1 < t) := by
  have hsf : seekF (p.totalSamples + 1) t { p with cur := -1 } = some (b, q) := by
    rw [iterSeek_eq t p, h]
  obtain ⟨ht, htm, hv, hc, hT, hF⟩ :=
    seekF_spec (p.totalSamples + 1) t { p with cur := -1 } q b hsf
  refine ⟨ht, htm, hv, ?_, ?_⟩
  · intro hb
    obtain ⟨hq1, hq2, hq3, hq4⟩ := hT hb
    have hc' : (-1 : Int) < q.cur := hc
    refine ⟨by omega, hq1, hq2, hq3, ?_⟩
    intro j hj1 hj2 hj3
    refine hq4 j ?_ hj2 hj3
    show (-1 : Int) < j
    omega
  · intro hb
    obtain ⟨hq1, hq2⟩ := hF hb
    refine ⟨hq1, ?_⟩
    intro j hj1 hj2 hj3
    refine hq2 j ?_ hj2 hj3
    show (-1 : Int) < j
    omega

/-! ### Label assembly lemmas -/

/-- The resolution loop ignores the zero ids entirely. -/
lemma resolveLabels_filter_zero (m : List (Int × Label)) (ids : List Int) :
    resolveLabels m ids = resolveLabels m (ids.filter (fun i => i != 0)) := by
  induction ids with
  | nil => rfl
  | cons id rest ih =>
    by_cases h : id = 0
    · subst h
      simp [resolveLabels, ih]
    · simp only [resolveLabels, if_neg h, List.filter]
      have : (id != 0) = true := by simpa using h
      rw [this]
      simp only [resolveLabels, if_neg h]
      rw [ih]

/-- The resolution loop fails exactly when some id in the list is non-zero
and missing from the map or mapped to the zero label. -/
lemma resolveLabels_error_iff (m : List (Int × Label)) (ids : List Int) :
    (∃ id ∈ ids, badLabelId m id) ↔ ∃ b, resolveLabels m ids = Except.error b := by
  induction ids with
  | nil =>
    simp [resolveLabels]
  | cons id rest ih =>
    by_cases h : id = 0
    · subst h
      have hstep : resolveLabels m (0 :: rest) = resolveLabels m rest := by
        simp [resolveLabels]
      rw [hstep, ← ih]
      constructor
      · rintro ⟨i, hi, hbad⟩
        rcases List.mem_cons.mp hi with hi | hi
        · subst hi
          exact absurd rfl hbad.1
        · exact ⟨i, hi, hbad⟩
      · rintro ⟨i, hi, hbad⟩
        exact ⟨i, List.mem_cons_of_mem _ hi, hbad⟩
    · rcases hl : List.lookup id m with _ | l
      · have hstep : resolveLabels m (id :: rest) = Except.error id := by
          simp [resolveLabels, h, hl]
        rw [hstep]
        constructor
        · intro _
          exact ⟨id, rfl⟩
        · intro _
          exact ⟨id, List.mem_cons_self _ _, h, Or.inl hl⟩
      · by_cases he : l = emptyLabel
        · have hstep : resolveLabels m (id :: rest) = Except.error id := by
            simp [resolveLabels, h, hl, he]
          rw [hstep]
          constructor
          · intro _
            exact ⟨id, rfl⟩
          · intro _
            refine ⟨id, List.mem_cons_self _ _, h, Or.inr ?_⟩
            rw [hl, he]
        · rcases hr : resolveLabels m rest with e | lls
          · have hstep : resolveLabels m (id :: rest) = Except.error e := by
              simp [resolveLabels, h, hl, he, hr]
            rw [hstep]
            constructor
            · intro _
              exact ⟨e, rfl⟩
            · intro _
              have : ∃ b, resolveLabels m rest = Except.error b := ⟨e, hr⟩
              obtain ⟨i, hi, hbad⟩ := ih.mpr this
              exact ⟨i, List.mem_cons_of_mem _ hi, hbad⟩
          · have hstep : resolveLabels m (id :: rest) = Except.ok (l :: lls) := by
              simp [resolveLabels, h, hl, he, hr]
            rw [hstep]
            constructor
            · rintro ⟨i, hi, hbad⟩
              rcases List.mem_cons.mp hi with hi | hi
              · subst hi
                rcases hbad.2 with hb | hb
                · rw [hl] at hb
                  cases hb
                · rw [hl] at hb
                  exact absurd (Option.some.inj hb) he
              · obtain ⟨e, he'⟩ := ih.mp ⟨i, hi, hbad⟩
                rw [he'] at hr
                cases hr
            · rintro ⟨b, hb⟩
              cases hb

/-- The override loop replaces the value of the first label named
`MetricNameLabelName` and leaves everything else alone. -/
lemma overrideMetricName_replaces_first (mo : String) (pre : List Label)
    (m : Label) (post : List Label)
    (hpre : ∀ l ∈ pre, l.name ≠ MetricNameLabelName)
    (hm : m.name = MetricNameLabelName) :
    overrideMetricName mo (pre ++ m :: post) = pre ++ { m with value := mo } :: post := by
  induction pre with
  | nil =>
    simp [overrideMetricName, hm]
  | cons l ls ih =>
    have hl : l.name ≠ MetricNameLabelName := hpre l (List.mem_cons_self _ _)
    have ih' := ih (fun x hx => hpre x (List.mem_cons_of_mem _ hx))
    simp only [List.cons_append, overrideMetricName, if_neg hl]
    exact congrArg (List.cons l) ih'

/-- When no label bears the metric name, the override loop is a no-op. -/
lemma overrideMetricName_noop (mo : String) (lls : List Label)
    (h : ∀ l ∈ lls, l.name ≠ MetricNameLabelName) :
    overrideMetricName mo lls = lls := by
  induction lls with
  | nil => rfl
  | cons l ls ih =>
    have hl : l.name ≠ MetricNameLabelName := h l (List.mem_cons_self _ _)
    simp only [overrideMetricName, if_neg hl]
    rw [ih]
    intro x hx
    exact h x (List.mem_cons_of_mem _ hx)

/-- The override loop never changes the sequence of label names. -/
lemma overrideMetricName_names (mo : String) (lls : List Label) :
    (overrideMetricName mo lls).map Label.name = lls.map Label.name := by
  induction lls with
  | nil => rfl
  | cons l ls ih =>
    by_cases h : l.name = MetricNameLabelName
    · simp [overrideMetricName, h]
    · simp only [overrideMetricName, if_neg h, List.map_cons]
      rw [ih]

/-- Unfolding of `At` on a positioned cursor (`0 ≤ rowIdx < len rows`):
the row-error check, the length check, the empty-labelIds short-circuit,
resolution, override, append, and sort, exactly in the order of the code. -/
lemma At_step (p : pgxSeriesSet) (row : timescaleRow)
    (hrow : p.rows[p.rowIdx.toNat]? = some row) (hge : 0 ≤ p.rowIdx) :
    pgxSeriesSet.At p =
      if row.err ≠ none then (AtResult.nilSeries, p)
      else if row.times.Len ≠ row.values.elements.length then
        (AtResult.nilSeries, { p with err := some SeriesSetErr.invalidRowData })
      else if row.labelIds.length = 0 then
        (AtResult.series { labels := [], times := row.times, values := row.values }, p)
      else
        match resolveLabels p.labelIDMap row.labelIds with
        | Except.error id =>
          (AtResult.nilSeries, { p with err := some (SeriesSetErr.missingLabel id) })
        | Except.ok lls =>
          (AtResult.series
            { labels := sortLabels
                ((if row.metricOverride ≠ "" then overrideMetricName row.metricOverride lls
                  else lls) ++ row.GetAdditionalLabels)
              times := row.times
              values := row.values }, p) := by
  have hlt : p.rowIdx.toNat < p.rows.length := by
    have := List.getElem?_eq_some.mp hrow
    exact this.1
  have hi : ¬ ((p.rows.length : Int) ≤ p.rowIdx) := by omega
  have hneg : ¬ (p.rowIdx < 0) := by omega
  have hgetD : p.rows.getD p.rowIdx.toNat defaultRow = row := by
    rw [List.getD_eq_getElem?_getD, hrow]
    rfl
  simp only [pgxSeriesSet.At, if_neg hi, if_neg hneg, hgetD]

/-! ### The claims -/

/-- C9: a single call to `Close()` on the cursor releases every row's
resources exactly once, in row order, regardless of the cursor's position
(including rows never visited via `Next()`): the close trace has one event
per row, the i-th event closes the i-th row, and the trace does not depend
on the cursor position or error state. -/
theorem close_releases_rows_in_order :
    ∀ p : pgxSeriesSet,
      (pgxSeriesSet.Close p).length = p.rows.length ∧
      (∀ i : Nat, (pgxSeriesSet.Close p)[i]? = (p.rows[i]?).map CloseEvent.mk) ∧
      (∀ (k : Int) (e : Option SeriesSetErr),
        pgxSeriesSet.Close { p with rowIdx := k, err := e } = pgxSeriesSet.Close p) := by
  intro p
  refine ⟨by simp [pgxSeriesSet.Close], ?_, fun k e => rfl⟩
  intro i
  simp [pgxSeriesSet.Close]

/-- C2 (amended): calling `At()` at any point after `Next()` has returned
false yields nothing and does not panic, and once `Next()` has returned
false every subsequent `Next()` also returns false without side effects.
(The original claim's further assertion — that `At()` before any `Next()`
also yields nothing and never panics — is refuted by the counterexample:
the out-of-range guard only checks the upper bound, so the fresh cursor's
`rows[-1]` access panics.) -/
theorem seriesSet_exhaustion_terminal :
    ∀ p q : pgxSeriesSet, pgxSeriesSet.Next p = (false, q) →
      pgxSeriesSet.Next q = (false, q) ∧
      pgxSeriesSet.At q = (AtResult.nilSeries, q) := by
  intro p q h
  have hcond : (q.rows.length : Int) ≤ q.rowIdx := by
    unfold pgxSeriesSet.Next at h
    dsimp only at h
    split at h
    · next h1 =>
      obtain ⟨-, rfl⟩ : false = false ∧ p = q := by simpa using h
      exact h1
    · split at h
      · next h2 =>
        obtain ⟨-, rfl⟩ : false = false ∧
            ({ p with rowIdx := p.rowIdx + 1 } : pgxSeriesSet) = q := by simpa using h
        exact h2
      · split at h
        · simp at h
        · simp at h
  constructor
  · unfold pgxSeriesSet.Next
    rw [if_pos hcond]
  · unfold pgxSeriesSet.At
    rw [if_pos hcond]

/-- C2 counterexample: on a fresh cursor (before any `Next()`), `At()`
panics — the upper-bound guard passes with `rowIdx = -1` and the negative
index access faults — instead of yielding nothing without a panic as the
claim states. -/
theorem seriesSet_exhaustion_terminal_cex :
    (pgxSeriesSet.At (buildPgxSeriesSet [rowPlain] [])).1 = AtResult.panicked := rfl

/-- C2 witness: the amended theorem applied to a concrete exhausted cursor. -/
theorem seriesSet_exhaustion_terminal_witness :
    pgxSeriesSet.Next (pgxSeriesSet.Next (buildPgxSeriesSet [] [])).2
        = (false, (pgxSeriesSet.Next (buildPgxSeriesSet [] [])).2) ∧
      pgxSeriesSet.At (pgxSeriesSet.Next (buildPgxSeriesSet [] [])).2
        = (AtResult.nilSeries, (pgxSeriesSet.Next (buildPgxSeriesSet [] [])).2) :=
  seriesSet_exhaustion_terminal (buildPgxSeriesSet [] [])
    (pgxSeriesSet.Next (buildPgxSeriesSet [] [])).2 rfl

/-- C1 (amended): the sticky error is never cleared back to nothing, and
`Next()` never replaces an already-set error (it adopts the current row's
pre-existing error only when no error is set); but a failure detected in
`At()` (invalid row data, missing label) overwrites whatever error was
latched before, so `Err()` returns the most recently latched error — not
necessarily the first failure encountered — wrapped with the
series-set-retrieval context.  (The original "first failure is latched
forever" form is refuted by the counterexample.) -/
theorem seriesSet_sticky_error_amended :
    (∀ (p : pgxSeriesSet) (e : SeriesSetErr), p.err = some e →
      ((pgxSeriesSet.Next p).2).err = some e) ∧
    (∀ p : pgxSeriesSet, p.err = none → (pgxSeriesSet.Next p).1 = true →
      ((pgxSeriesSet.Next p).2).err
        = (p.rows.getD (p.rowIdx + 1).toNat defaultRow).err.map SeriesSetErr.rowErr) ∧
    (∀ p : pgxSeriesSet, p.err ≠ none → ((pgxSeriesSet.At p).2).err ≠ none) ∧
    (∀ p : pgxSeriesSet,
      pgxSeriesSet.Err p = p.err.map QueryError.retrieveSeriesSet) := by
  refine ⟨?_, ?_, ?_, fun p => rfl⟩
  · intro p e he
    unfold pgxSeriesSet.Next
    dsimp only
    split
    · exact he
    · split
      · exact he
      · split
        · next hq =>
          rw [he] at hq
          cases hq
        · exact he
  · intro p he hb
    by_cases h1 : (p.rows.length : Int) ≤ p.rowIdx
    · unfold pgxSeriesSet.Next at hb
      rw [if_pos h1] at hb
      simp at hb
    · by_cases h2 : (p.rows.length : Int) ≤ p.rowIdx + 1
      · unfold pgxSeriesSet.Next at hb
        dsimp only at hb
        rw [if_neg h1, if_pos h2] at hb
        simp at hb
      · unfold pgxSeriesSet.Next
        dsimp only
        rw [if_neg h1, if_neg h2, if_pos he]
  · intro p h
    unfold pgxSeriesSet.At
    dsimp only
    split
    · exact h
    · split
      · exact h
      · split
        · exact h
        · split
          · simp
          · split
            · exact h
            · split
              · simp
              · exact h

/-- C1 counterexample: row 0 carries a pre-existing fetch error, adopted as
the sticky error by the first `Next()`; row 1 has mismatched lengths, so
`At()` on it overwrites the latched error with the invalid-row-data error,
and `Err()` thereafter reports the later failure, not the first one. -/
theorem seriesSet_sticky_error_cex :
    ((pgxSeriesSet.Next (buildPgxSeriesSet [rowWithErr, rowMismatch] [])).2.err
      = some (SeriesSetErr.rowErr ⟨0⟩)) ∧
    (pgxSeriesSet.Err (pgxSeriesSet.At
        (pgxSeriesSet.Next
          (pgxSeriesSet.Next (buildPgxSeriesSet [rowWithErr, rowMismatch] [])).2).2).2
      = some (QueryError.retrieveSeriesSet SeriesSetErr.invalidRowData)) ∧
    (pgxSeriesSet.Err (pgxSeriesSet.At
        (pgxSeriesSet.Next
          (pgxSeriesSet.Next (buildPgxSeriesSet [rowWithErr, rowMismatch] [])).2).2).2
      ≠ some (QueryError.retrieveSeriesSet (SeriesSetErr.rowErr ⟨0⟩))) := by
  refine ⟨rfl, rfl, by decide⟩

/-- C1 witness: the amended theorem applied to a concrete cursor that
already latched an error. -/
theorem seriesSet_sticky_error_witness :
    ((pgxSeriesSet.Next
        { rowIdx := 0, rows := [], labelIDMap := [],
          err := some SeriesSetErr.invalidRowData }).2).err
      = some SeriesSetErr.invalidRowData :=
  seriesSet_sticky_error_amended.1
    { rowIdx := 0, rows := [], labelIDMap := [], err := some SeriesSetErr.invalidRowData }
    SeriesSetErr.invalidRowData rfl

/-- C3 (amended): for every row positioned by a successful `Next()` that
carries no pre-existing row error and whose timestamp-sequence length
differs from its value-sequence length, `At()` returns nothing (no partial
series) and latches the invalid-row-data error, which `Err()` then reports
wrapped in the series-set-retrieval context.  (The original claim, without
the no-pre-existing-error proviso, is refuted by the counterexample: a row
error short-circuits `At()` before the length check, so `Err()` reports
the row error instead.) -/
theorem invalid_row_data_amended :
    ∀ (p : pgxSeriesSet) (row : timescaleRow),
      p.rows[p.rowIdx.toNat]? = some row → 0 ≤ p.rowIdx →
      row.err = none → row.times.Len ≠ row.values.elements.length →
      pgxSeriesSet.At p
          = (AtResult.nilSeries, { p with err := some SeriesSetErr.invalidRowData }) ∧
        pgxSeriesSet.Err (pgxSeriesSet.At p).2
          = some (QueryError.retrieveSeriesSet SeriesSetErr.invalidRowData) := by
  intro p row hrow hge herr hlen
  have hAt : pgxSeriesSet.At p
      = (AtResult.nilSeries, { p with err := some SeriesSetErr.invalidRowData }) := by
    rw [At_step p row hrow hge, if_neg (by simp [herr]), if_pos hlen]
  exact ⟨hAt, by rw [hAt]; rfl⟩

/-- C3 counterexample: a row with both a pre-existing error and mismatched
lengths is positioned by a successful `Next()`, `At()` yields nothing, but
`Err()` reports the wrapped row error, not invalid-row-data. -/
theorem invalid_row_data_cex :
    (pgxSeriesSet.Next (buildPgxSeriesSet [rowErrMismatch] [])).1 = true ∧
    rowErrMismatch.times.Len ≠ rowErrMismatch.values.elements.length ∧
    (pgxSeriesSet.At
        (pgxSeriesSet.Next (buildPgxSeriesSet [rowErrMismatch] [])).2).1
      = AtResult.nilSeries ∧
    pgxSeriesSet.Err
        (pgxSeriesSet.At
          (pgxSeriesSet.Next (buildPgxSeriesSet [rowErrMismatch] [])).2).2
      = some (QueryError.retrieveSeriesSet (SeriesSetErr.rowErr ⟨0⟩)) ∧
    pgxSeriesSet.Err
        (pgxSeriesSet.At
          (pgxSeriesSet.Next (buildPgxSeriesSet [rowErrMismatch] [])).2).2
      ≠ some (QueryError.retrieveSeriesSet SeriesSetErr.invalidRowData) :=
  ⟨by decide, by decide, rfl, rfl, by decide⟩

/-- C3 witness: the amended theorem applied to a concrete positioned
cursor over a one-timestamp, zero-values row. -/
theorem invalid_row_data_witness :
    pgxSeriesSet.At cursorMismatch
        = (AtResult.nilSeries,
            { cursorMismatch with err := some SeriesSetErr.invalidRowData }) ∧
      pgxSeriesSet.Err (pgxSeriesSet.At cursorMismatch).2
        = some (QueryError.retrieveSeriesSet SeriesSetErr.invalidRowData) :=
  invalid_row_data_amended cursorMismatch rowMismatch rfl (by decide) rfl (by decide)

/-- C4: during series assembly in `At()`, every zero label identifier is
skipped; the resolution loop fails exactly when some non-zero id has a
missing or zero-value entry in the map; and on such a failure assembly
aborts entirely: `At()` returns nothing (no partial label list) with the
missing-label error latched, and `Err()` reports it wrapped. -/
theorem missing_label_aborts :
    (∀ (m : List (Int × Label)) (ids : List Int),
      resolveLabels m ids = resolveLabels m (ids.filter (fun i => i != 0))) ∧
    (∀ (m : List (Int × Label)) (ids : List Int),
      (∃ id ∈ ids, badLabelId m id) ↔ ∃ b, resolveLabels m ids = Except.error b) ∧
    (∀ (p : pgxSeriesSet) (row : timescaleRow) (b : Int),
      p.rows[p.rowIdx.toNat]? = some row → 0 ≤ p.rowIdx →
      row.err = none → row.times.Len = row.values.elements.length →
      resolveLabels p.labelIDMap row.labelIds = Except.error b →
      pgxSeriesSet.At p
          = (AtResult.nilSeries, { p with err := some (SeriesSetErr.missingLabel b) }) ∧
        pgxSeriesSet.Err (pgxSeriesSet.At p).2
          = some (QueryError.retrieveSeriesSet (SeriesSetErr.missingLabel b))) := by
  refine ⟨resolveLabels_filter_zero, resolveLabels_error_iff, ?_⟩
  intro p row b hrow hge herr hlen hres
  have hids : ¬(row.labelIds.length = 0) := by
    intro h0
    rw [List.length_eq_zero.mp h0] at hres
    simp [resolveLabels] at hres
  have hAt : pgxSeriesSet.At p
      = (AtResult.nilSeries, { p with err := some (SeriesSetErr.missingLabel b) }) := by
    rw [At_step p row hrow hge, if_neg (by simp [herr]), if_neg (by simp [hlen]),
      if_neg hids, hres]
  exact ⟨hAt, by rw [hAt]; rfl⟩

/-- C4 witness: the theorem applied to a concrete cursor whose row
references id 7, absent from the (empty) resolved map. -/
theorem missing_label_aborts_witness :
    pgxSeriesSet.At cursorBadLabel
        = (AtResult.nilSeries,
            { cursorBadLabel with err := some (SeriesSetErr.missingLabel 7) }) ∧
      pgxSeriesSet.Err (pgxSeriesSet.At cursorBadLabel).2
        = some (QueryError.retrieveSeriesSet (SeriesSetErr.missingLabel 7)) :=
  missing_label_aborts.2.2 cursorBadLabel rowBadLabel 7 rfl (by decide) rfl rfl rfl

/-- C5: with a non-empty `metricOverride`, series assembly replaces the
value of exactly the first label (in `labelIds` resolution order) whose
name is the metric-name label, leaving all names and every other label —
including later duplicates of the metric name — unchanged; when no label
bears that name the override is a no-op and assembly still succeeds. -/
theorem metric_override_first_match :
    (∀ (mo : String) (pre : List Label) (m : Label) (post : List Label),
      (∀ l ∈ pre, l.name ≠ MetricNameLabelName) → m.name = MetricNameLabelName →
      overrideMetricName mo (pre ++ m :: post) = pre ++ { m with value := mo } :: post) ∧
    (∀ (mo : String) (lls : List Label),
      (∀ l ∈ lls, l.name ≠ MetricNameLabelName) → overrideMetricName mo lls = lls) ∧
    (∀ (mo : String) (lls : List Label),
      (overrideMetricName mo lls).map Label.name = lls.map Label.name) ∧
    (∀ (p : pgxSeriesSet) (row : timescaleRow) (lls : List Label),
      p.rows[p.rowIdx.toNat]? = some row → 0 ≤ p.rowIdx →
      row.err = none → row.times.Len = row.values.elements.length →
      row.labelIds ≠ [] →
      resolveLabels p.labelIDMap row.labelIds = Except.ok lls →
      row.metricOverride ≠ "" →
      (∀ l ∈ lls, l.name ≠ MetricNameLabelName) →
      (pgxSeriesSet.At p).1
        = AtResult.series
            { labels := sortLabels (lls ++ row.GetAdditionalLabels)
              times := row.times
              values := row.values }) := by
  refine ⟨fun mo pre m post h1 h2 => overrideMetricName_replaces_first mo pre m post h1 h2,
    fun mo lls h => overrideMetricName_noop mo lls h,
    fun mo lls => overrideMetricName_names mo lls, ?_⟩
  intro p row lls hrow hge herr hlen hids hres hmo hno
  have hids' : ¬(row.labelIds.length = 0) := by
    intro h0
    exact hids (List.length_eq_zero.mp h0)
  rw [At_step p row hrow hge, if_neg (by simp [herr]), if_neg (by simp [hlen]),
    if_neg hids', hres]
  show AtResult.series
      { labels := sortLabels
          ((if row.metricOverride ≠ "" then overrideMetricName row.metricOverride lls
            else lls) ++ row.GetAdditionalLabels)
        times := row.times
        values := row.values }
    = _
  rw [if_pos hmo, overrideMetricName_noop row.metricOverride lls hno]

/-- C5 witness: the first conjunct applied to a concrete list in which the
metric-name label occurs twice; only the first occurrence is replaced. -/
theorem metric_override_first_match_witness :
    overrideMetricName exBar ([labJob] ++ labName :: [labNameDup])
      = [labJob] ++ { labName with value := exBar } :: [labNameDup] :=
  metric_override_first_match.1 exBar [labJob] labName [labNameDup] (by decide) rfl

/-- C6 (amended): for every row with at least one label identifier on
which `At()` produces a series, the series' label list is the assembled
list — resolved labels (with the override applied when set) followed by
`additionalLabels` appended verbatim, with no deduplication — sorted by
label name, for any input order of `labelIds`: the produced list is a
permutation of the assembled list and is sorted under the by-name order.
(The original claim, quantified over every row on which `At()` produces a
series, is refuted by the counterexample: with zero label identifiers the
code short-circuits and drops `additionalLabels` entirely.) -/
theorem labels_sorted_appended_amended :
    ∀ (p : pgxSeriesSet) (row : timescaleRow) (lls : List Label),
      p.rows[p.rowIdx.toNat]? = some row → 0 ≤ p.rowIdx →
      row.err = none → row.times.Len = row.values.elements.length →
      row.labelIds ≠ [] →
      resolveLabels p.labelIDMap row.labelIds = Except.ok lls →
      (pgxSeriesSet.At p).1
          = AtResult.series
              { labels := sortLabels (assembledLabels row lls)
                times := row.times
                values := row.values } ∧
        (sortLabels (assembledLabels row lls)).Perm (assembledLabels row lls) ∧
        List.Sorted labelLe (sortLabels (assembledLabels row lls)) := by
  intro p row lls hrow hge herr hlen hids hres
  have hids' : ¬(row.labelIds.length = 0) := by
    intro h0
    exact hids (List.length_eq_zero.mp h0)
  refine ⟨?_, List.perm_insertionSort labelLe _, List.sorted_insertionSort labelLe _⟩
  rw [At_step p row hrow hge, if_neg (by simp [herr]), if_neg (by simp [hlen]),
    if_neg hids', hres]
  rfl

/-- C6 counterexample: a row with no label identifiers but a non-empty
`additionalLabels` yields a series whose label list is empty — the
additional labels are dropped, not appended and sorted. -/
theorem labels_sorted_appended_cex :
    (pgxSeriesSet.At
        (pgxSeriesSet.Next (buildPgxSeriesSet [rowNoIds] [])).2).1.labelList
      = some [] ∧
    some ([] : List Label) ≠ some (sortLabels ([] ++ rowNoIds.GetAdditionalLabels)) := by
  refine ⟨rfl, by decide⟩

/-- C6 witness: the amended theorem applied to a concrete cursor whose row
resolves ids `[2, 1]` out of name order and appends one additional label. -/
theorem labels_sorted_appended_witness :
    (pgxSeriesSet.At cursorFull).1
      = AtResult.series
          { labels := sortLabels (assembledLabels exRowFull [⟨"job", "a"⟩, ⟨"__name__", "foo"⟩])
            times := exRowFull.times
            values := exRowFull.values } :=
  (labels_sorted_appended_amended cursorFull exRowFull [⟨"job", "a"⟩, ⟨"__name__", "foo"⟩]
    rfl (by decide) rfl rfl (by decide) rfl).1

/-- C7: `Next()` advances past every position whose value is absent or
whose timestamp cannot be read, stopping on the next present sample with
`true` (every skipped position in between fails the present-and-readable
test) or returning `false` with the cursor past the end when the range is
exhausted; and on the spec's example — times `[0,1,2,3]`, values
`[1.0, null, 3.0, null]` — the iterator yields exactly `(0,1)` and `(2,3)`
and then `Next()` returns false on both subsequent calls. -/
theorem iterator_next_skips_absent :
    (∀ (p q : pgxSeriesIterator) (b : Bool), pgxSeriesIterator.Next p = (b, q) →
      q.totalSamples = p.totalSamples ∧ q.times = p.times ∧ q.values = p.values ∧
      p.cur < q.cur ∧
      (b = true → q.cur < (p.totalSamples : Int) ∧
        sampleOk p.times p.values q.cur = true ∧
        ∀ j : Int, p.cur < j → j < q.cur → sampleOk p.times p.values j = false) ∧
      (b = false → (p.totalSamples : Int) ≤ q.cur ∧
        ∀ j : Int, p.cur < j → j < (p.totalSamples : Int) →
          sampleOk p.times p.values j = false)) ∧
    ((pgxSeriesIterator.Next exIter0).1 = true ∧
      pgxSeriesIterator.At exIter1 = (0, 1) ∧
      (pgxSeriesIterator.Next exIter1).1 = true ∧
      pgxSeriesIterator.At exIter2 = (2, 3) ∧
      (pgxSeriesIterator.Next exIter2).1 = false ∧
      (pgxSeriesIterator.Next exIter3).1 = false) :=
  ⟨fun p q b h => iterNext_spec p q b h, by decide⟩

/-- C7 witness: the first conjunct applied to the concrete example
iterator, with the hypothesis discharged by computation. -/
theorem iterator_next_skips_absent_witness :
    exIter0.cur < (pgxSeriesIterator.Next exIter0).2.cur :=
  (iterator_next_skips_absent.1 exIter0 (pgxSeriesIterator.Next exIter0).2
    (pgxSeriesIterator.Next exIter0).1 rfl).2.2.2.1

/-- C8: `Seek(t)` resets to before the first sample and scans forward via
`Next`: on `true` the cursor is parked on the first present readable
sample (in scan order) whose timestamp is at least `t` (every earlier
present sample has a smaller timestamp); on `false` no such sample exists
and the iterator is exhausted (cursor past the end).  Because of the
reset, the result does not depend on the cursor position before the call,
so seeking to an earlier timestamp also works; and on the example data
`Seek 2` lands on `(2,3)` returning true while `Seek 10` returns false
with the iterator exhausted. -/
theorem iterator_seek_first_at_least :
    (∀ (t : Int) (p q : pgxSeriesIterator) (b : Bool),
      pgxSeriesIterator.Seek t p = (b, q) →
      q.totalSamples = p.totalSamples ∧ q.times = p.times ∧ q.values = p.values ∧
      (b = true → 0 ≤ q.cur ∧ q.cur < (p.totalSamples : Int) ∧
        sampleOk p.times p.values q.cur = true ∧ t ≤ (p.times.At q.cur).1 ∧
        ∀ j : Int, 0 ≤ j → j < q.cur →
          sampleOk p.times p.values j = true → (p.times.At j).1 < t) ∧
      (b = false → (p.totalSamples : Int) ≤ q.cur ∧
        ∀ j : Int, 0 ≤ j → j < (p.totalSamples : Int) →
          sampleOk p.times p.values j = true → (p.times.At j).1 < t)) ∧
    (∀ (t : Int) (p : pgxSeriesIterator) (c : Int),
      pgxSeriesIterator.Seek t { p with cur := c } = pgxSeriesIterator.Seek t p) ∧
    ((pgxSeriesIterator.Seek 2 exIter0).1 = true ∧
      pgxSeriesIterator.At (pgxSeriesIterator.Seek 2 exIter0).2 = (2, 3) ∧
      (pgxSeriesIterator.Seek 10 exIter0).1 = false ∧
      (4 : Int) ≤ (pgxSeriesIterator.Seek 10 exIter0).2.cur) :=
  ⟨fun t p q b h => seek_spec t p q b h, fun _ _ _ => rfl, by decide⟩

/-- C8 witness: the spec conjunct applied to a concrete seek, with the
hypothesis discharged by computation. -/
theorem iterator_seek_first_at_least_witness :
    (pgxSeriesIterator.Seek 2 exIter0).2.totalSamples = exIter0.totalSamples :=
  (iterator_seek_first_at_least.1 2 exIter0 (pgxSeriesIterator.Seek 2 exIter0).2
    (pgxSeriesIterator.Seek 2 exIter0).1 rfl).1

/-- C10: the `Next` loop strictly increments the cursor, which is bounded
by the sample count, so `Next` terminates: running the loop body with
`itFuel p + 1` units of fuel (one per cursor increment) never exhausts the
fuel and computes `Next`; consequently `Seek t` terminates after at most
`totalSamples + 1` `Next` steps from the reset cursor. -/
theorem iterator_loops_terminate :
    (∀ p : pgxSeriesIterator, p.cur < (pgxSeriesIterator.Next p).2.cur) ∧
    (∀ p : pgxSeriesIterator,
      iterNextF (itFuel p + 1) p = some (pgxSeriesIterator.Next p)) ∧
    (∀ (t : Int) (p : pgxSeriesIterator),
      seekF (p.totalSamples + 1) t { p with cur := -1 }
        = some (pgxSeriesIterator.Seek t p)) :=
  ⟨fun p => (iterNext_spec p (pgxSeriesIterator.Next p).2 (pgxSeriesIterator.Next p).1
      rfl).2.2.2.1,
    fun p => iterNext_eq p,
    fun t p => iterSeek_eq t p⟩
